import Mathlib

set_option linter.unusedVariables false

/-!
# Verification of the fumio runtime core

A shallow embedding of the core of the `fumio` single-threaded async runtime
(crates `fumio-pool`, `fumio-reactor`, `fumio-utils`), with theorems settling
the frozen claims about its natural-language specification.

Components modelled:

* the pool task list (`fumio-pool/src/pool/task.rs`): the `local_all` list of
  live tasks, the `local_pending` ready list, the `global_pending` MPSC queue
  with its per-task `queued` flag, polling rounds and the completion `clear`;
* the Vyukov-style intrusive MPSC drain (`fumio-utils/src/mpsc.rs`);
* the per-source reactor task-slot (`fumio-reactor/src/reactor/task.rs`) with
  its readiness accumulators and waker slots;
* the `Registration` spin-locked task-slot operations
  (`fumio-reactor/src/reactor/registration.rs`);
* the reactor self-wake two-bit state machine
  (`fumio-reactor/src/reactor/waker.rs`) and `Reactor::poll`.

Raw pointers of the source are replaced by `Nat` identifiers, intrusive link
membership by membership in explicit lists, machine-word readiness bitsets by
`Nat` with `Nat.lor`, and atomics by plain state fields: all the modelled code
runs on one thread, with the cross-thread interference points (a foreign wake,
a readiness event arriving between two atomic operations) made explicit as
extra parameters of the corresponding functions.
-/

namespace Fumio

/-! ## Pool task model (`fumio-pool/src/pool/task.rs`) -/

/-- The per-task fields of `Task` that the claims are about:
`queued: AtomicBool` (presence gate for the global MPSC),
`alive: Cell<bool>`, and the stored future.  The future is modelled as
`Option Nat`: `some fuel` is a live future that returns `Pending` for
`fuel` more polls and then `Ready`; `none` is a destroyed future
(`*this.local_future() = None`). -/
structure TaskRec where
  queued : Bool
  alive : Bool
  future : Option Nat
  deriving Repr, DecidableEq

/-- The state of a `TaskList`: task records addressed by `Nat` ids,
the `local_all` doubly-linked list of live tasks (link membership modelled as
list membership), the `local_pending` ready list, and the `global_pending`
MPSC queue contents.  The intrusive links of the source become membership in
`localAll` / `pending` / `gqueue`. -/
structure PoolState where
  tasks : Nat → TaskRec
  localAll : List Nat
  pending : List Nat
  gqueue : List Nat

/-- Pointwise update of the task map, standing for the mutation of the fields
of one `Task` through its pointer. -/
def updTask (f : Nat → TaskRec) (a : Nat) (r : TaskRec) : Nat → TaskRec :=
  fun i => if i = a then r else f i

/-- Model of `Task::local_clear`: store `queued := true` (preventing any further
enqueue), store `alive := false`, unlink `local_pending_link`, unlink
`local_link`, and destroy the future (`future := none`). -/
def localClear (s : PoolState) (a : Nat) : PoolState :=
  { tasks := updTask s.tasks a { queued := true, alive := false, future := none },
    localAll := s.localAll.erase a,
    pending := s.pending.erase a,
    gqueue := s.gqueue }

/-- Model of `Task::local_poll`: poll the stored future once; when it returns `Ready`
(fuel exhausted) immediately run `local_clear`, otherwise leave the task on
`local_all` with the decremented future.  The `future = none` case is
unreachable while polling (the source `expect`s "pending futures must be
alive"); it is modelled as a no-op. -/
def localPoll (s : PoolState) (a : Nat) : PoolState :=
  match (s.tasks a).future with
  | none => s
  | some fuel =>
    if fuel = 0 then
      localClear s a
    else
      { s with tasks := updTask s.tasks a { s.tasks a with future := some (fuel - 1) } }

/-- Result of one polling round (`Poll<()>` in the source). -/
inductive PollOut
  | ready
  | pending
  deriving Repr, DecidableEq

/-- Model of `TaskList::poll`: atomically take `local_pending` into a private list
(`poll_list.pending.take_from(&self.local_pending)`), pop each task from its
front and poll it once; afterwards report `Ready` exactly when `local_all`
is empty. -/
def pollRound (s : PoolState) : PoolState × PollOut :=
  let priv := s.pending
  let s0 := { s with pending := ([] : List Nat) }
  let s1 := priv.foldl localPoll s0
  (s1, if s1.localAll.isEmpty then PollOut.ready else PollOut.pending)

/-- Model of `TaskList::global_notify` (foreign-thread wake): atomically swap `queued`
to `true`; only the setter that observed `false` pushes the task onto the
`global_pending` MPSC (and fires the pool waker, not modelled). -/
def globalNotify (s : PoolState) (a : Nat) : PoolState :=
  if (s.tasks a).queued then
    s
  else
    { s with tasks := updTask s.tasks a { s.tasks a with queued := true },
             gqueue := s.gqueue ++ [a] }

/-- A sequence of foreign-thread wake calls between two drains. -/
def notifySeq (s : PoolState) (evs : List Nat) : PoolState :=
  evs.foldl globalNotify s

/-- Model of `TaskList::fetch_global_notifies` (the drain, run only by the owning
thread): pop every task from the global MPSC, swap its `queued` flag back to
`false`, and link it onto `local_pending` only if it is alive and its
pending link is unlinked. -/
def fetchGlobalNotifies (s : PoolState) : PoolState :=
  s.gqueue.foldl
    (fun st a =>
      let st1 := { st with tasks := updTask st.tasks a { st.tasks a with queued := false } }
      if (st1.tasks a).alive ∧ a ∉ st1.pending then
        { st1 with pending := st1.pending ++ [a] }
      else
        st1)
    { s with gqueue := ([] : List Nat) }

/-- Model of `PollList::drop` (the panic handler of `TaskList::poll`): pop every task
still on the round's private list from its back and prepend it onto
`local_pending` if it is alive and its pending link is unlinked
(the link is always unlinked right after `pop_back`; being absent from the
accumulated pending list models that defensive check). -/
def pollListDrop (s : PoolState) (rem : List Nat) : PoolState :=
  { s with pending :=
      rem.foldr (fun a p => if (s.tasks a).alive ∧ a ∉ p then a :: p else p) s.pending }

/-- A polling round aborted by a panic in the `(k+1)`-th poll: the first `k`
tasks of the private list are polled normally, the panicking task is cleared
by `ClearOnPanic` (`Task::local_poll`), and `PollList::drop` reinstates the
remaining tasks onto `local_pending`. -/
def abortedRound (s : PoolState) (k : Nat) : PoolState :=
  let priv := s.pending
  let s0 := { s with pending := ([] : List Nat) }
  let s1 := (priv.take k).foldl localPoll s0
  let s2 := match priv.get? k with
    | some a => if (s1.tasks a).alive then localClear s1 a else s1
    | none => s1
  pollListDrop s2 (priv.drop (k + 1))

/-! ## MPSC queue drain (`fumio-utils/src/mpsc.rs`)

The Vyukov-style intrusive MPSC queue keeps a stub node in the linked chain
at all times: the chain from the consumer's cursor to the tail contains the
stub exactly once.  We therefore represent the chain as a pair of item lists
`pre`/`post`: the nodes before the stub (`pre`, cursor first) and the nodes
after it (`post`, tail last), the stub sitting between them.  A producer's
`push` appends at the tail, i.e. onto `post`.  The drain (`PopAll::next` in a
loop) pops the front node as long as its `next` pointer is non-null; popping
the stub re-pushes it at the tail, and the second stub visit terminates the
drain.  `sched n` is the batch of concurrent producer pushes that lands
between drain step `n` and step `n + 1`: the drain must terminate for every
such schedule, including one that pushes forever. -/

/-- Outcome of one full drain: the items yielded, the number of stub visits,
and the remaining chain (`finalPre` before the stub, `finalPost` after it,
pushes scheduled after termination not included). -/
structure DrainResult where
  items : List Nat
  visits : Nat
  finalPre : List Nat
  finalPost : List Nat
  deriving Repr, DecidableEq

/-- Model of `PopAll::next`, iterated to exhaustion (`for task in start_pop()`),
with concurrent pushes `sched`.  Per step, front of `pre` first:
a non-stub node is popped and yielded; the stub, reached when `pre` is empty,
is popped and immediately re-pushed at the tail (`self.this._push(item)`)
provided it has a successor, and the drain stops at its second visit
(`repushed` is the `repushed_stub` flag); a node with a null `next` pointer
(the stub with empty `post`) ends the drain without being popped. -/
def mpscDrain (sched : Nat → List Nat) (n : Nat) (pre post : List Nat)
    (repushed : Bool) : DrainResult :=
  match pre with
  | a :: pre2 =>
    let r := mpscDrain sched (n + 1) pre2 (post ++ sched n) repushed
    ⟨a :: r.items, r.visits, r.finalPre, r.finalPost⟩
  | [] =>
    match post with
    | [] => ⟨[], 0, [], []⟩
    | b :: post2 =>
      if h : repushed then
        ⟨[], 1, b :: post2, []⟩
      else
        let r := mpscDrain sched (n + 1) (b :: post2) (sched n) true
        ⟨r.items, r.visits + 1, r.finalPre, r.finalPost⟩
termination_by (cond repushed 0 1, pre.length)
decreasing_by
· exact Prod.Lex.right _ (Nat.lt_succ_self _)
· cases repushed
  · exact Prod.Lex.left _ _ (by decide)
  · exact absurd rfl h

/-! ## Reactor task-slot (`fumio-reactor/src/reactor/task.rs`) -/

/-- The readiness-facing fields of `InnerTask`: the two accumulator bitsets
(`Nat` standing for the machine-word `mio::Ready` bits), the two `AtomicWaker`
slots (a waker is a `Nat` identifier), and whether the weak reactor `Handle`
can still be upgraded. -/
structure RTask where
  readReadiness : Nat
  writeReadiness : Nat
  readWaker : Option Nat
  writeWaker : Option Nat
  reactorAlive : Bool
  deriving Repr, DecidableEq

/-- Model of `ReactorTask::take_read_ready`: swap the read accumulator to zero and
return the previous bits. -/
def takeReadRdy (t : RTask) : Nat × RTask :=
  (t.readReadiness, { t with readReadiness := 0 })

/-- Model of `ReactorTask::take_write_ready`. -/
def takeWriteRdy (t : RTask) : Nat × RTask :=
  (t.writeReadiness, { t with writeReadiness := 0 })

/-- Result of `poll_read_ready` / `poll_write_ready`
(`Poll<io::Result<mio::Ready>>`). -/
inductive PollReadyRes
  | ready (bits : Nat)
  | ioErr (kind msg : String)
  | pend
  deriving Repr, DecidableEq

/-- Model of `ReactorTask::poll_read_ready`: swap the read accumulator and return it
if non-empty; otherwise register the context's waker in the read waker slot,
re-sample (swap) the accumulator and return it if now non-empty; otherwise
fail if the weak reactor handle cannot be upgraded, else return pending.
`inj` is the set of (already read-masked) bits that a concurrent
`update_ready` ORs into the accumulator between the first swap and the
re-sample; sequential execution is `inj = 0`. -/
def pollReadRdy (t : RTask) (cx : Nat) (inj : Nat) : PollReadyRes × RTask :=
  let (r1, t1) := takeReadRdy t
  if r1 ≠ 0 then
    (PollReadyRes.ready r1, t1)
  else
    let t2 := { t1 with readWaker := some cx }
    let t2i := { t2 with readReadiness := t2.readReadiness ||| inj }
    let (r2, t3) := takeReadRdy t2i
    if r2 ≠ 0 then
      (PollReadyRes.ready r2, t3)
    else if t3.reactorAlive then
      (PollReadyRes.pend, t3)
    else
      (PollReadyRes.ioErr "Other" "reactor not running anymore", t3)

/-- Model of `ReactorTask::poll_write_ready`, the write-side mirror image. -/
def pollWriteRdy (t : RTask) (cx : Nat) (inj : Nat) : PollReadyRes × RTask :=
  let (r1, t1) := takeWriteRdy t
  if r1 ≠ 0 then
    (PollReadyRes.ready r1, t1)
  else
    let t2 := { t1 with writeWaker := some cx }
    let t2i := { t2 with writeReadiness := t2.writeReadiness ||| inj }
    let (r2, t3) := takeWriteRdy t2i
    if r2 ≠ 0 then
      (PollReadyRes.ready r2, t3)
    else if t3.reactorAlive then
      (PollReadyRes.pend, t3)
    else
      (PollReadyRes.ioErr "Other" "reactor not running anymore", t3)

/-- Swap the read side and the write side of a task-slot. -/
def swapSides (t : RTask) : RTask :=
  { readReadiness := t.writeReadiness,
    writeReadiness := t.readReadiness,
    readWaker := t.writeWaker,
    writeWaker := t.readWaker,
    reactorAlive := t.reactorAlive }

/-- The specification of `poll_read_ready`, written from the spec's ordered
steps (swap and return if non-empty; register the waker; re-sample and return
if now non-empty; probe reactor liveness, failing with "reactor not running
anymore" if dead; else pending).  Used to state the refinement of C4. -/
def pollReadRdySpec (t : RTask) (cx : Nat) (inj : Nat) : PollReadyRes × RTask :=
  if t.readReadiness ≠ 0 then
    (PollReadyRes.ready t.readReadiness, { t with readReadiness := 0 })
  else
    let t2 := { t with readReadiness := 0, readWaker := some cx }
    if inj ≠ 0 then
      (PollReadyRes.ready inj, t2)
    else if ¬ t2.reactorAlive then
      (PollReadyRes.ioErr "Other" "reactor not running anymore", t2)
    else
      (PollReadyRes.pend, t2)

/-! ## Registration (`fumio-reactor/src/reactor/registration.rs`) -/

/-- Result of a `Registration` operation on the spin-locked task-slot;
`panicked` models an `unwrap` of an `Err`. -/
inductive RegPollRes
  | ready (bits : Nat)
  | ioErr (kind msg : String)
  | pend
  | panicked
  deriving Repr, DecidableEq

/-- Model of `Registration::clear_read_ready`: with no task-slot, fail with an
"other"-kind error; otherwise swap the slot's read accumulator to zero. -/
def regClearReadRdy (slot : Option RTask) : RegPollRes × Option RTask :=
  match slot with
  | none => (RegPollRes.ioErr "Other" "clear_read_ready: not registered", none)
  | some t =>
    let (r, t1) := takeReadRdy t
    (RegPollRes.ready r, some t1)

/-- Model of `Registration::clear_write_ready`. -/
def regClearWriteRdy (slot : Option RTask) : RegPollRes × Option RTask :=
  match slot with
  | none => (RegPollRes.ioErr "Other" "clear_write_ready: not registered", none)
  | some t =>
    let (r, t1) := takeWriteRdy t
    (RegPollRes.ready r, some t1)

/-- Lift a task-slot poll result into a registration-level result. -/
def liftPollRes : PollReadyRes → RegPollRes
  | PollReadyRes.ready bits => RegPollRes.ready bits
  | PollReadyRes.ioErr k m => RegPollRes.ioErr k m
  | PollReadyRes.pend => RegPollRes.pend

/-- Model of `Registration::poll_read_ready`: with no task-slot, propagate the
"other"-kind error (`ok_or_else(...)?`); otherwise delegate to the slot. -/
def regPollReadRdy (slot : Option RTask) (cx inj : Nat) : RegPollRes × Option RTask :=
  match slot with
  | none => (RegPollRes.ioErr "Other" "poll_read_ready: not registered", none)
  | some t =>
    let (r, t1) := pollReadRdy t cx inj
    (liftPollRes r, some t1)

/-- Model of `Registration::poll_write_ready`: with no task-slot the source calls
`.unwrap()` on the `Err` produced by `ok_or_else` — a panic, not an error
return; otherwise delegate to the slot. -/
def regPollWriteRdy (slot : Option RTask) (cx inj : Nat) : RegPollRes × Option RTask :=
  match slot with
  | none => (RegPollRes.panicked, none)
  | some t =>
    let (r, t1) := pollWriteRdy t cx inj
    (liftPollRes r, some t1)

/-- The task-slot as seen by `Registration::deregister`: all that matters is
whether the slot's weak reactor handle can still be upgraded. -/
structure RegTask where
  reactorAlive : Bool
  deriving Repr, DecidableEq

/-- The spin-locked slot of a `Registration`
(`None` before `register`, cleared by `take`). -/
structure RegSt where
  slot : Option RegTask
  deriving Repr, DecidableEq

/-- Result of `Registration::deregister` (`io::Result<()>`). -/
inductive DeregRes
  | ok
  | osErr (msg : String)
  deriving Repr, DecidableEq

/-- Model of `Registration::deregister`: lock the slot and `take()` it (clearing it)
when present; if the slot's reactor upgrades, call the reactor's deregister
(whose mio call may fail, `osOk = false`), else do nothing more;
always return `Ok` except when mio itself fails. -/
def deregisterReg (s : RegSt) (osOk : Bool) : DeregRes × RegSt :=
  match s.slot with
  | none => (DeregRes.ok, s)
  | some t =>
    let s1 : RegSt := ⟨none⟩
    if t.reactorAlive then
      if osOk then (DeregRes.ok, s1)
      else (DeregRes.osErr "mio deregister failed", s1)
    else
      (DeregRes.ok, s1)

/-! ## Reactor self-wake (`fumio-reactor/src/reactor/waker.rs`) -/

/-- The two-bit atomic state of `ReactorWaker`
(`STATE_POLLING = 0b01`, `STATE_PENDING = 0b10`). -/
structure WakerSt where
  polling : Bool
  pending : Bool
  deriving Repr, DecidableEq

/-- Model of `Inner::wake_by_ref`: `fetch_or(STATE_PENDING, Release)`; if PENDING was
already set, coalesce; if POLLING was clear, rely on `start_poll` seeing
PENDING; otherwise nudge the OS readiness handle (`set_readiness`), reported
as the returned `Bool`. -/
def wakeByRef (s : WakerSt) : WakerSt × Bool :=
  let s1 := { s with pending := true }
  if s.pending then (s1, false)
  else if ¬ s.polling then (s1, false)
  else (s1, true)

/-- Model of `ReactorWaker::start_poll`: if a load sees PENDING, report pending
without touching the state (POLLING stays clear); otherwise
`fetch_or(STATE_POLLING)` and, if a racing wake set PENDING in between
(`raceWake`), clear POLLING again and report pending; else report
not-pending with POLLING set.  Returns `(pending, state)`. -/
def startPoll (s : WakerSt) (raceWake : Bool) : Bool × WakerSt :=
  if s.pending then
    (true, s)
  else
    let s' := if raceWake then { s with pending := true } else s
    let s1 := { s' with polling := true }
    if s'.pending then (true, { s1 with polling := false })
    else (false, s1)

/-- Dropping the `ReactorWakerPollling` guard: `state.swap(0)` — both bits
cleared for the next round. -/
def guardDrop (s : WakerSt) : WakerSt :=
  ⟨false, false⟩

/-- Model of `Reactor::poll`: run `start_poll`; when it reports pending, substitute a
zero timeout for the OS poll; the OS poll, event dispatch and change-queue
drain do not touch the waker state; dropping the poll guard at the end of the
function resets the state.  Returns the timeout handed to the OS poller and
the waker state after the round. -/
def reactorPoll (s : WakerSt) (raceWake : Bool) (timeout : Option Nat) :
    Option Nat × WakerSt :=
  let p := startPoll s raceWake
  let timeout2 := if p.1 then some 0 else timeout
  (timeout2, guardDrop p.2)

/-- What `Handle::waker` hands back: the reactor's own waker when the weak
handle upgrades, the no-op waker otherwise. -/
inductive WakerKind
  | noopWaker
  | reactorRef
  deriving Repr, DecidableEq

/-- Model of `Handle::waker`: upgrade the weak handle; on success return the reactor
waker, on failure return `futures_util::task::noop_waker()`. -/
def handleWaker (upgraded : Option WakerSt) : WakerKind :=
  match upgraded with
  | some _ => WakerKind.reactorRef
  | none => WakerKind.noopWaker

/-- Invoking a waker on the reactor waker state: the no-op waker does
nothing at all (no state change, no OS nudge); the reactor waker runs
`wake_by_ref`. -/
def invokeWaker (k : WakerKind) (s : WakerSt) : WakerSt × Bool :=
  match k with
  | WakerKind.noopWaker => (s, false)
  | WakerKind.reactorRef => wakeByRef s

/-! ## Sample states for concrete witnesses -/

/-- A fully-cleared task record, as left behind by `Task::local_clear`. -/
def clearedRec : TaskRec :=
  { queued := true, alive := false, future := none }

/-- A pool with one live task (id 0) scheduled and about to complete. -/
def sampleC7 : PoolState :=
  { tasks := fun _ => { queued := false, alive := true, future := some 0 },
    localAll := [0], pending := [0], gqueue := [] }

/-- A pool with three live tasks scheduled, none about to complete. -/
def sampleC5 : PoolState :=
  { tasks := fun _ => { queued := false, alive := true, future := some 5 },
    localAll := [0, 1, 2], pending := [0, 1, 2], gqueue := [] }

/-- A pool with one live task (id 0) scheduled that stays pending. -/
def sampleC3 : PoolState :=
  { tasks := fun _ => { queued := false, alive := true, future := some 5 },
    localAll := [0], pending := [0], gqueue := [] }

/-! ## Helper lemmas -/

theorem updTask_same (f : Nat → TaskRec) (a : Nat) (r : TaskRec) :
    updTask f a r a = r := by
  simp [updTask]

theorem updTask_other (f : Nat → TaskRec) (a : Nat) (r : TaskRec) (b : Nat)
    (h : b ≠ a) : updTask f a r b = f b := by
  simp [updTask, h]

theorem localPoll_tasks_other (s : PoolState) (b a : Nat) (h : a ≠ b) :
    (localPoll s b).tasks a = s.tasks a := by
  unfold localPoll localClear
  rcases hf : (s.tasks b).future with _ | fuel <;> simp only [hf]
  split
  · exact updTask_other _ _ _ _ h
  · exact updTask_other _ _ _ _ h

theorem localPoll_localAll_nomem (s : PoolState) (b a : Nat)
    (h : a ∉ s.localAll) : a ∉ (localPoll s b).localAll := by
  unfold localPoll localClear
  rcases hf : (s.tasks b).future with _ | fuel <;> simp only [hf]
  · exact h
  · split
    · exact fun hmem => h (List.mem_of_mem_erase hmem)
    · exact h

theorem localPoll_pending_eq_or_erase (s : PoolState) (b : Nat) :
    (localPoll s b).pending = s.pending ∨
    (localPoll s b).pending = s.pending.erase b := by
  unfold localPoll localClear
  rcases hf : (s.tasks b).future with _ | fuel <;> simp only [hf]
  · exact Or.inl trivial
  · split
    · exact Or.inr rfl
    · exact Or.inl rfl

theorem localPoll_pending_nomem (s : PoolState) (b a : Nat)
    (h : a ∉ s.pending) : a ∉ (localPoll s b).pending := by
  rcases localPoll_pending_eq_or_erase s b with he | he <;> rw [he]
  · exact h
  · exact fun hmem => h (List.mem_of_mem_erase hmem)

theorem foldl_tasks_other (a : Nat) :
    ∀ (l : List Nat) (s : PoolState), a ∉ l →
      (l.foldl localPoll s).tasks a = s.tasks a := by
  intro l
  induction l with
  | nil => intro s _; rfl
  | cons b l2 ih =>
    intro s hmem
    rw [List.foldl_cons, ih _ (fun hx => hmem (List.mem_cons_of_mem _ hx)),
      localPoll_tasks_other]
    exact fun he => hmem (he ▸ List.mem_cons_self b l2)

theorem foldl_pending_nil (l : List Nat) :
    ∀ (s : PoolState), s.pending = [] → (l.foldl localPoll s).pending = [] := by
  induction l with
  | nil => intro s h; exact h
  | cons b l2 ih =>
    intro s h
    rw [List.foldl_cons]
    apply ih
    rcases localPoll_pending_eq_or_erase s b with he | he <;> rw [he, h]
    rfl

theorem globalNotify_queued_preserved (s : PoolState) (e t : Nat)
    (h : (s.tasks t).queued = true) :
    ((globalNotify s e).tasks t).queued = true ∧
    (globalNotify s e).gqueue.count t = s.gqueue.count t := by
  unfold globalNotify
  by_cases hq : (s.tasks e).queued = true
  · simp [hq, h]
  · have hne : t ≠ e := by
      intro he
      rw [he] at h
      exact hq h
    simp [hq, updTask_other _ _ _ _ hne, h, List.count_append]
    exact List.count_eq_zero.mpr (by simp [hne])

theorem notifySeq_queued_preserved (t : Nat) :
    ∀ (evs : List Nat) (s : PoolState), (s.tasks t).queued = true →
      ((notifySeq s evs).tasks t).queued = true ∧
      (notifySeq s evs).gqueue.count t = s.gqueue.count t := by
  intro evs
  induction evs with
  | nil => intro s h; exact ⟨h, rfl⟩
  | cons e evs2 ih =>
    intro s h
    have h1 := globalNotify_queued_preserved s e t h
    have h2 := ih (globalNotify s e) h1.1
    exact ⟨h2.1, h2.2.trans h1.2⟩

theorem globalNotify_count_other (s : PoolState) (e t : Nat) (h : e ≠ t) :
    (globalNotify s e).gqueue.count t = s.gqueue.count t := by
  unfold globalNotify
  by_cases hq : (s.tasks e).queued = true
  · simp [hq]
  · simp [hq, List.count_append]
    exact List.count_eq_zero.mpr (by simp [Ne.symm h])

theorem globalNotify_tasks_other (s : PoolState) (e t : Nat) (h : t ≠ e) :
    (globalNotify s e).tasks t = s.tasks t := by
  unfold globalNotify
  by_cases hq : (s.tasks e).queued = true
  · simp [hq]
  · simp [hq, updTask_other _ _ _ _ h]

/-! ## Claim theorems -/

/-- C2: on a `Registration` whose task-slot is absent, `poll_read_ready`,
`clear_read_ready` and `clear_write_ready` return an `ErrorKind::Other` I/O
error, but `poll_write_ready` panics: the source calls `.unwrap()` on the
`Err` instead of propagating it with `?` (registration.rs line 155), which
the repository's own design notes flag as accidental.  The claim (all four
fail with an "other"-kind error, no panic) is therefore the intended
behaviour and the code diverges from it on `poll_write_ready`. -/
theorem claim_C2_unregistered_ops :
    (regPollReadRdy none 0 0).1 =
      RegPollRes.ioErr "Other" "poll_read_ready: not registered" ∧
    (regClearReadRdy none).1 =
      RegPollRes.ioErr "Other" "clear_read_ready: not registered" ∧
    (regClearWriteRdy none).1 =
      RegPollRes.ioErr "Other" "clear_write_ready: not registered" ∧
    (regPollWriteRdy none 0 0).1 = RegPollRes.panicked :=
  ⟨rfl, rfl, rfl, rfl⟩

theorem pollRound_snd (s : PoolState) :
    (pollRound s).2 =
      if (pollRound s).1.localAll.isEmpty then PollOut.ready else PollOut.pending :=
  rfl

/-- C3: a polling round (`TaskList::poll`, reached through
`LocalPool::poll_pool`) reports `Ready` exactly when the `local_all` list is
empty once the round's polls are done, and `Pending` whenever the list is
still non-empty. -/
theorem claim_C3_empty_iff_ready (s : PoolState) :
    ((pollRound s).2 = PollOut.ready ↔ (pollRound s).1.localAll = []) ∧
    ((pollRound s).1.localAll ≠ [] → (pollRound s).2 = PollOut.pending) := by
  rw [pollRound_snd]
  rcases hE : (pollRound s).1.localAll with _ | ⟨a, l⟩ <;> simp

theorem claim_C3_empty_iff_ready_witness :
    (pollRound sampleC3).1.localAll ≠ [] ∧
    (pollRound sampleC3).2 = PollOut.pending :=
  ⟨by decide, (claim_C3_empty_iff_ready sampleC3).2 (by decide)⟩

/-- C8: when the reactor's self-wake is pending as `Reactor::poll` begins,
`start_poll` reports it without setting the POLLING bit (the state word is
untouched), `Reactor::poll` hands the OS poller a zero timeout instead of the
caller's, and dropping the poll guard stores 0, clearing both bits. -/
theorem claim_C8_pending_poll (s : WakerSt) (rcw : Bool) (timeout : Option Nat)
    (h : s.pending = true) :
    startPoll s rcw = (true, s) ∧
    reactorPoll s rcw timeout = (some 0, ⟨false, false⟩) := by
  unfold reactorPoll startPoll guardDrop
  simp [h]

theorem claim_C8_pending_poll_witness :
    (WakerSt.mk false true).pending = true ∧
    startPoll ⟨false, true⟩ false = (true, ⟨false, true⟩) ∧
    reactorPoll ⟨false, true⟩ false none = (some 0, ⟨false, false⟩) :=
  ⟨rfl, (claim_C8_pending_poll ⟨false, true⟩ false none rfl).1,
    (claim_C8_pending_poll ⟨false, true⟩ false none rfl).2⟩

/-- C9: `Handle::waker` on a handle whose reactor has been dropped (the weak
reference no longer upgrades) returns the no-op waker, and invoking that
waker changes nothing and performs no OS nudge — rather than failing or
panicking. -/
theorem claim_C9_dead_handle_noop :
    handleWaker none = WakerKind.noopWaker ∧
    ∀ s : WakerSt, invokeWaker (handleWaker none) s = (s, false) :=
  ⟨rfl, fun _ => rfl⟩

/-- C10 counterexample: with a task-slot present whose reactor is gone,
`Registration::deregister` returns `Ok` but does *not* leave the
registration's state unchanged — `take()` clears the spin-locked slot.  This
refutes the claim's "returns Ok and leaves the registration's state
unchanged whenever ... the task-slot's reactor handle can no longer be
upgraded" at the concrete state `slot = some (dead reactor)`. -/
theorem claim_C10_counterexample :
    deregisterReg ⟨some ⟨false⟩⟩ true = (DeregRes.ok, ⟨none⟩) ∧
    (deregisterReg ⟨some ⟨false⟩⟩ true).2 ≠ (⟨some ⟨false⟩⟩ : RegSt) := by
  decide

/-- C10 (amended): `deregister` returns `Ok` both when the source is not
registered (and then the state is indeed unchanged) and when the task-slot's
reactor handle no longer upgrades (but then the slot is cleared, not left
unchanged); after any `deregister` the slot is empty, so a second call in a
row always succeeds and is a no-op — which is what makes `Drop` and
`into_inner` safe at any time. -/
theorem claim_C10_deregister (s : RegSt) (o1 o2 : Bool) :
    (s.slot = none → deregisterReg s o1 = (DeregRes.ok, s)) ∧
    (∀ t, s.slot = some t → t.reactorAlive = false →
      deregisterReg s o1 = (DeregRes.ok, ⟨none⟩)) ∧
    deregisterReg (deregisterReg s o1).2 o2 = (DeregRes.ok, (deregisterReg s o1).2) := by
  obtain ⟨slot⟩ := s
  refine ⟨?_, ?_, ?_⟩
  · intro h
    subst h
    rfl
  · intro t h hra
    subst h
    obtain ⟨ra⟩ := t
    simp only at hra
    subst hra
    rfl
  · cases slot with
    | none => rfl
    | some t =>
      cases t with
      | mk ra => cases ra <;> cases o1 <;> rfl

theorem claim_C10_deregister_witness :
    deregisterReg ⟨some ⟨false⟩⟩ true = (DeregRes.ok, ⟨none⟩) ∧
    deregisterReg ⟨none⟩ true = (DeregRes.ok, ⟨none⟩) :=
  ⟨(claim_C10_deregister ⟨some ⟨false⟩⟩ true true).2.1 ⟨false⟩ rfl rfl,
    (claim_C10_deregister ⟨none⟩ true true).1 rfl⟩

/-- C1: between two drains of the global MPSC, a task `t` is pushed at most
once, however many foreign wakes (`TaskList::global_notify`) occur and for
whatever tasks: only the wake whose swap of `queued` observes `false` pushes,
`queued` stays set until `fetch_global_notifies` clears it, so the number of
entries for `t` on the queue grows by at most one over any wake sequence. -/
theorem claim_C1_at_most_once_queued (t : Nat) :
    ∀ (evs : List Nat) (s : PoolState),
      (notifySeq s evs).gqueue.count t ≤ s.gqueue.count t + 1 := by
  intro evs
  induction evs with
  | nil => intro s; exact Nat.le_succ_of_le (Nat.le_refl _)
  | cons e evs2 ih =>
    intro s
    have hstep : notifySeq s (e :: evs2) = notifySeq (globalNotify s e) evs2 := rfl
    by_cases hqt : (s.tasks t).queued = true
    · have h := (notifySeq_queued_preserved t (e :: evs2) s hqt).2
      omega
    · by_cases het : e = t
      · subst het
        have hpush : ((globalNotify s e).tasks e).queued = true ∧
            (globalNotify s e).gqueue.count e = s.gqueue.count e + 1 := by
          unfold globalNotify
          simp [hqt, updTask_same, List.count_append]
        have h2 := (notifySeq_queued_preserved e evs2 (globalNotify s e) hpush.1).2
        rw [hstep]
        omega
      · have hcnt := globalNotify_count_other s e t het
        have h2 := ih (globalNotify s e)
        rw [hstep]
        omega

/-- C4: for a registered task-slot, `poll_read_ready` performs exactly the
spec's steps in order — swap the read accumulator and return it if non-empty;
otherwise install the context's waker; re-sample the accumulator (any bits a
concurrent `update_ready` contributed arrive as `inj`) and return it if now
non-empty; otherwise fail with "reactor not running anymore" when the weak
reactor handle no longer upgrades; otherwise return pending — and
`poll_write_ready` is the same procedure with the read and write sides
swapped. -/
theorem claim_C4_poll_ready_steps (t : RTask) (cx inj : Nat) :
    pollReadRdy t cx inj = pollReadRdySpec t cx inj ∧
    pollWriteRdy t cx inj =
      ((pollReadRdySpec (swapSides t) cx inj).1,
        swapSides (pollReadRdySpec (swapSides t) cx inj).2) := by
  obtain ⟨rr, wr, rwk, wwk, ra⟩ := t
  constructor
  · by_cases h1 : rr = 0 <;> by_cases h2 : inj = 0 <;> cases ra <;>
      simp [pollReadRdy, pollReadRdySpec, takeReadRdy, swapSides, h1, h2]
  · by_cases h1 : wr = 0 <;> by_cases h2 : inj = 0 <;> cases ra <;>
      simp [pollWriteRdy, pollReadRdySpec, takeWriteRdy, swapSides, h1, h2]

theorem mpscDrain_eq_cons (sched : Nat → List Nat) (n : Nat) (a : Nat)
    (pre2 post : List Nat) (r : Bool) :
    mpscDrain sched n (a :: pre2) post r =
      ⟨a :: (mpscDrain sched (n + 1) pre2 (post ++ sched n) r).items,
        (mpscDrain sched (n + 1) pre2 (post ++ sched n) r).visits,
        (mpscDrain sched (n + 1) pre2 (post ++ sched n) r).finalPre,
        (mpscDrain sched (n + 1) pre2 (post ++ sched n) r).finalPost⟩ := by
  rw [mpscDrain.eq_def]

theorem mpscDrain_eq_nil_nil (sched : Nat → List Nat) (n : Nat) (r : Bool) :
    mpscDrain sched n [] [] r = ⟨[], 0, [], []⟩ := by
  rw [mpscDrain.eq_def]

theorem mpscDrain_eq_stub_true (sched : Nat → List Nat) (n : Nat) (b : Nat)
    (post2 : List Nat) :
    mpscDrain sched n [] (b :: post2) true = ⟨[], 1, b :: post2, []⟩ := by
  rw [mpscDrain.eq_def]
  rfl

theorem mpscDrain_eq_stub_false (sched : Nat → List Nat) (n : Nat) (b : Nat)
    (post2 : List Nat) :
    mpscDrain sched n [] (b :: post2) false =
      ⟨(mpscDrain sched (n + 1) (b :: post2) (sched n) true).items,
        (mpscDrain sched (n + 1) (b :: post2) (sched n) true).visits + 1,
        (mpscDrain sched (n + 1) (b :: post2) (sched n) true).finalPre,
        (mpscDrain sched (n + 1) (b :: post2) (sched n) true).finalPost⟩ := by
  rw [mpscDrain.eq_def]
  rfl

theorem mpscDrain_visits_repushed (sched : Nat → List Nat) :
    ∀ (pre : List Nat) (n : Nat) (post : List Nat),
      (mpscDrain sched n pre post true).visits ≤ 1 := by
  intro pre
  induction pre with
  | nil =>
    intro n post
    cases post with
    | nil => simp [mpscDrain_eq_nil_nil]
    | cons b post2 => simp [mpscDrain_eq_stub_true]
  | cons a pre2 ih =>
    intro n post
    rw [mpscDrain_eq_cons]
    exact ih _ _

/-- C6: a single drain of the MPSC queue (`PopAll` iterated to exhaustion)
visits the stub node at most twice, whatever the initial chain and however
many nodes concurrent producers push at every step (`sched`); the
`repushed_stub` flag makes the second stub visit terminate the drain, and
the drain function's well-founded recursion (flag, distance to the stub) is
itself the proof that every drain terminates under continuous producer
pressure. -/
theorem claim_C6_stub_visits (sched : Nat → List Nat) (n : Nat)
    (pre post : List Nat) :
    (mpscDrain sched n pre post false).visits ≤ 2 := by
  induction pre generalizing n post with
  | nil =>
    cases post with
    | nil => simp [mpscDrain_eq_nil_nil]
    | cons b post2 =>
      rw [mpscDrain_eq_stub_false]
      have h := mpscDrain_visits_repushed sched (b :: post2) (n + 1) (sched n)
      change (mpscDrain sched (n + 1) (b :: post2) (sched n) true).visits + 1 ≤ 2
      omega
  | cons a pre2 ih =>
    rw [mpscDrain_eq_cons]
    exact ih _ _

theorem localPoll_localAll_eq_or_erase (s : PoolState) (b : Nat) :
    (localPoll s b).localAll = s.localAll ∨
    (localPoll s b).localAll = s.localAll.erase b := by
  unfold localPoll localClear
  rcases hf : (s.tasks b).future with _ | fuel <;> simp only [hf]
  · exact Or.inl trivial
  · split
    · exact Or.inr rfl
    · exact Or.inl rfl

theorem localPoll_localAll_nodup (s : PoolState) (b : Nat)
    (h : s.localAll.Nodup) : (localPoll s b).localAll.Nodup := by
  rcases localPoll_localAll_eq_or_erase s b with he | he <;> rw [he]
  · exact h
  · exact h.erase b

theorem localPoll_pending_nodup (s : PoolState) (b : Nat)
    (h : s.pending.Nodup) : (localPoll s b).pending.Nodup := by
  rcases localPoll_pending_eq_or_erase s b with he | he <;> rw [he]
  · exact h
  · exact h.erase b

theorem localPoll_preserves_cleared (s : PoolState) (b a : Nat)
    (h1 : s.tasks a = clearedRec) (h2 : a ∉ s.localAll) (h3 : a ∉ s.pending) :
    (localPoll s b).tasks a = clearedRec ∧
    a ∉ (localPoll s b).localAll ∧ a ∉ (localPoll s b).pending := by
  by_cases hab : a = b
  · subst hab
    unfold localPoll
    rw [h1]
    exact ⟨h1, h2, h3⟩
  · exact ⟨(localPoll_tasks_other s b a hab).trans h1,
      localPoll_localAll_nomem s b a h2, localPoll_pending_nomem s b a h3⟩

theorem foldl_preserves_cleared (a : Nat) :
    ∀ (l : List Nat) (s : PoolState),
      s.tasks a = clearedRec → a ∉ s.localAll → a ∉ s.pending →
      (l.foldl localPoll s).tasks a = clearedRec ∧
      a ∉ (l.foldl localPoll s).localAll ∧ a ∉ (l.foldl localPoll s).pending := by
  intro l
  induction l with
  | nil => intro s h1 h2 h3; exact ⟨h1, h2, h3⟩
  | cons b l2 ih =>
    intro s h1 h2 h3
    have hs := localPoll_preserves_cleared s b a h1 h2 h3
    exact ih (localPoll s b) hs.1 hs.2.1 hs.2.2

theorem localClear_cleared (s : PoolState) (a : Nat)
    (hndA : s.localAll.Nodup) (hndP : s.pending.Nodup) :
    (localClear s a).tasks a = clearedRec ∧
    a ∉ (localClear s a).localAll ∧ a ∉ (localClear s a).pending := by
  refine ⟨updTask_same _ _ _, ?_, ?_⟩
  · intro hmem
    exact ((hndA.mem_erase_iff).mp hmem).1 rfl
  · intro hmem
    exact ((hndP.mem_erase_iff).mp hmem).1 rfl

theorem localPoll_clears (s : PoolState) (a : Nat)
    (hf : (s.tasks a).future = some 0)
    (hndA : s.localAll.Nodup) (hndP : s.pending.Nodup) :
    (localPoll s a).tasks a = clearedRec ∧
    a ∉ (localPoll s a).localAll ∧ a ∉ (localPoll s a).pending := by
  have he : localPoll s a = localClear s a := by
    unfold localPoll
    rw [hf]
    rfl
  rw [he]
  exact localClear_cleared s a hndA hndP

theorem foldl_clears (a : Nat) :
    ∀ (l : List Nat) (s : PoolState), a ∈ l →
      (s.tasks a).future = some 0 → s.localAll.Nodup → s.pending.Nodup →
      (l.foldl localPoll s).tasks a = clearedRec ∧
      a ∉ (l.foldl localPoll s).localAll ∧ a ∉ (l.foldl localPoll s).pending := by
  intro l
  induction l with
  | nil => intro s hmem; exact absurd hmem (List.not_mem_nil a)
  | cons b l2 ih =>
    intro s hmem hf hA hP
    rw [List.foldl_cons]
    by_cases hb : b = a
    · subst hb
      have hc := localPoll_clears s b hf hA hP
      exact foldl_preserves_cleared b l2 (localPoll s b) hc.1 hc.2.1 hc.2.2
    · have hmem2 : a ∈ l2 := by
        rcases List.mem_cons.mp hmem with he | he
        · exact absurd he.symm hb
        · exact he
      have hf2 : ((localPoll s b).tasks a).future = some 0 := by
        rw [localPoll_tasks_other s b a (fun he => hb he.symm)]
        exact hf
      exact ih (localPoll s b) hmem2 hf2 (localPoll_localAll_nodup s b hA)
        (localPoll_pending_nodup s b hP)

/-- C7: when a scheduled task's poll returns `Ready`, `local_clear` runs at
once and afterwards the task's record shows `alive = false`,
`queued = true` (so no later wake can enqueue it again), the future
destroyed, and the task unlinked from both the `local_all` and the
`local_pending` lists. -/
theorem claim_C7_completion_clears (s : PoolState) (a : Nat)
    (h1 : a ∈ s.pending) (h2 : (s.tasks a).future = some 0)
    (h3 : s.localAll.Nodup) (h4 : s.pending.Nodup) :
    (((pollRound s).1.tasks a).alive = false ∧
      ((pollRound s).1.tasks a).queued = true ∧
      ((pollRound s).1.tasks a).future = none) ∧
    a ∉ (pollRound s).1.localAll ∧ a ∉ (pollRound s).1.pending := by
  have heq : (pollRound s).1 =
      s.pending.foldl localPoll { s with pending := ([] : List Nat) } := rfl
  have h := foldl_clears a s.pending { s with pending := ([] : List Nat) }
    h1 h2 h3 List.nodup_nil
  rw [heq]
  exact ⟨⟨by rw [h.1]; rfl, by rw [h.1]; rfl, by rw [h.1]; rfl⟩, h.2.1, h.2.2⟩

theorem claim_C7_completion_clears_witness :
    (((pollRound sampleC7).1.tasks 0).alive = false ∧
      ((pollRound sampleC7).1.tasks 0).queued = true ∧
      ((pollRound sampleC7).1.tasks 0).future = none) ∧
    0 ∉ (pollRound sampleC7).1.localAll ∧ 0 ∉ (pollRound sampleC7).1.pending :=
  claim_C7_completion_clears sampleC7 0 (by decide) (by decide)
    (by decide) (by decide)

theorem pollListDrop_all_alive (s : PoolState) :
    ∀ (rem : List Nat), (∀ x ∈ rem, (s.tasks x).alive = true) → rem.Nodup →
      (∀ x ∈ rem, x ∉ s.pending) →
      (pollListDrop s rem).pending = rem ++ s.pending := by
  intro rem
  induction rem with
  | nil => intro _ _ _; rfl
  | cons a rem2 ih =>
    intro halive hnd hdisj
    have htail :
        List.foldr (fun a p => if (s.tasks a).alive = true ∧ a ∉ p then a :: p else p)
          s.pending rem2 = rem2 ++ s.pending :=
      ih (fun x hx => halive x (List.mem_cons_of_mem a hx))
        hnd.of_cons
        (fun x hx => hdisj x (List.mem_cons_of_mem a hx))
    have hnotmem : a ∉ rem2 ++ s.pending := by
      intro hmem
      rcases List.mem_append.mp hmem with hmem | hmem
      · exact (List.nodup_cons.mp hnd).1 hmem
      · exact hdisj a (List.mem_cons_self a rem2) hmem
    show (if (s.tasks a).alive = true ∧
        a ∉ List.foldr (fun a p => if (s.tasks a).alive = true ∧ a ∉ p then a :: p else p)
          s.pending rem2 then
        a :: List.foldr (fun a p => if (s.tasks a).alive = true ∧ a ∉ p then a :: p else p)
          s.pending rem2
      else
        List.foldr (fun a p => if (s.tasks a).alive = true ∧ a ∉ p then a :: p else p)
          s.pending rem2) = a :: rem2 ++ s.pending
    rw [htail, if_pos ⟨halive a (List.mem_cons_self a rem2), hnotmem⟩,
      List.cons_append]

theorem reinstate_after_clear (s1 : PoolState) (e : Nat) (rem : List Nat)
    (hpend : s1.pending = [])
    (hne : ∀ x ∈ rem, x ≠ e)
    (halive : ∀ x ∈ rem, (s1.tasks x).alive = true)
    (hnd : rem.Nodup) :
    (pollListDrop (if (s1.tasks e).alive = true then localClear s1 e else s1)
        rem).pending = rem := by
  set s2 := if (s1.tasks e).alive = true then localClear s1 e else s1 with hs2
  have htasks : ∀ x ∈ rem, s2.tasks x = s1.tasks x := by
    intro x hx
    rw [hs2]
    split
    · exact updTask_other _ _ _ _ (hne x hx)
    · rfl
  have hpend2 : s2.pending = [] := by
    rw [hs2]
    split
    · show s1.pending.erase e = []
      rw [hpend, List.erase_nil]
    · exact hpend
  have h := pollListDrop_all_alive s2 rem
    (fun x hx => (htasks x hx).symm ▸ halive x hx) hnd
    (fun x hx => by rw [hpend2]; exact List.not_mem_nil x)
  rw [h, hpend2, List.append_nil]

/-- C5: when the polling round is aborted after `k` successful polls (the
`(k+1)`-th poll panics and its task is cleared by `ClearOnPanic`),
`PollList::drop` prepends every not-yet-polled task of the round's private
list back onto `local_pending`, in order: the pending list afterwards is
exactly the untouched tail of the schedule, so a subsequent round observes
every one of those tasks and no scheduling is lost. -/
theorem claim_C5_panic_reinstates (s : PoolState) (k : Nat)
    (hk : k < s.pending.length) (hnd : s.pending.Nodup)
    (halive : ∀ x ∈ s.pending, (s.tasks x).alive = true) :
    (abortedRound s k).pending = s.pending.drop (k + 1) ∧
    ∀ x ∈ s.pending.drop (k + 1), x ∈ (abortedRound s k).pending := by
  have he : s.pending.get? k = some (s.pending.get ⟨k, hk⟩) := List.get?_eq_get hk
  set e := s.pending.get ⟨k, hk⟩ with hedef
  set s0 : PoolState := { s with pending := ([] : List Nat) } with hs0
  set s1 := (s.pending.take k).foldl localPoll s0 with hs1
  set rem := s.pending.drop (k + 1) with hrem
  have hun : abortedRound s k =
      pollListDrop (if (s1.tasks e).alive = true then localClear s1 e else s1)
        rem := by
    simp only [abortedRound, he]
  -- the remaining tasks are disjoint from everything polled or cleared
  have hsplit := List.take_append_drop (k + 1) s.pending
  have hnd2 : (s.pending.take (k + 1) ++ s.pending.drop (k + 1)).Nodup := by
    rw [hsplit]
    exact hnd
  have hdisj := (List.nodup_append.mp hnd2).2.2
  have hnotin : ∀ x ∈ rem, x ∉ s.pending.take (k + 1) := by
    intro x hx hxt
    exact hdisj hxt hx
  have htake : s.pending.take (k + 1) = s.pending.take k ++ [e] := by
    rw [List.take_succ]
    have : s.pending[k]? = some e := by
      rw [List.getElem?_eq_getElem hk]
      rfl
    rw [this]
    rfl
  have hnotk : ∀ x ∈ rem, x ∉ s.pending.take k := by
    intro x hx hxt
    exact hnotin x hx (htake ▸ List.mem_append.mpr (Or.inl hxt))
  have hnee : ∀ x ∈ rem, x ≠ e := by
    intro x hx hxe
    exact hnotin x hx (htake ▸ List.mem_append.mpr (Or.inr (by simp [hxe])))
  have htasks1 : ∀ x ∈ rem, s1.tasks x = s.tasks x := by
    intro x hx
    rw [hs1]
    exact foldl_tasks_other x (s.pending.take k) s0 (hnotk x hx)
  have hpend1 : s1.pending = [] := by
    rw [hs1]
    exact foldl_pending_nil (s.pending.take k) s0 rfl
  have hsub : ∀ x ∈ rem, x ∈ s.pending := fun x hx =>
    List.drop_subset (k + 1) s.pending hx
  have hremnd : rem.Nodup := List.Nodup.sublist (List.drop_sublist _ _) hnd
  have hmain := reinstate_after_clear s1 e rem hpend1 hnee
    (fun x hx => (htasks1 x hx).symm ▸ halive x (hsub x hx)) hremnd
  rw [hun, hmain]
  exact ⟨rfl, fun x hx => hx⟩

theorem claim_C5_panic_reinstates_witness :
    (abortedRound sampleC5 0).pending = [1, 2] ∧
    ∀ x ∈ ([1, 2] : List Nat), x ∈ (abortedRound sampleC5 0).pending := by
  have h := claim_C5_panic_reinstates sampleC5 0 (by decide) (by decide)
    (by decide)
  exact h

end Fumio
